import Mathlib

/-!
# usb-troubleshoot: the serial command channel

A shallow embedding of `main.go`: the port selector (`findPort`), the wire
encoding of a command (`Request.String`), the response parser
(`ParseResponse`), the timeout guard (`TimeoutReader.Read`) and one
request/response exchange (`SendRequest`).

Go strings are byte sequences, so a string is a list of bytes here.  The
library routines the program calls (`strings.TrimRight`, `strings.Contains`,
`bufio.Scanner` with its default line splitter, `strconv.Quote` behind the
`%q` verb) are given by small executable models of their documented
behaviour, each named after the routine it stands for.
-/

namespace UsbTroubleshoot

/-! ## Strings -/

/-- A Go string: an arbitrary sequence of bytes -/
abbrev GoString := List UInt8

/-- The bytes of a string literal, in UTF-8 as the Go compiler stores them -/
def GoString.lit (s : String) : GoString := s.toUTF8.data.toList

open GoString (lit)

/-- Go `strings.TrimRight(s, cutset)` for a cutset of ASCII bytes: bytes are
removed from the end of `s` for as long as the last byte is in the cutset -/
def TrimRight (s cutset : GoString) : GoString :=
  s.rdropWhile (fun b => decide (b ∈ cutset))

/-- Go `strings.Contains(s, substr)`: some tail of `s` starts with `substr` -/
def Contains (s substr : GoString) : Bool :=
  s.tails.any (fun t => substr.isPrefixOf t)

/-- The digits used by `strconv` for hexadecimal escapes -/
def lowerhex : GoString := lit "0123456789abcdef"

/-- How `strconv.Quote` writes one ASCII byte inside the double quotes: the
quote and the backslash are backslashed, a printable byte (0x20 to 0x7e) stands
for itself, the seven control characters with a letter escape use it, every
other byte is written as a two-digit hexadecimal escape -/
def escapeASCII (b : UInt8) : GoString :=
  if b = 34 ∨ b = 92 then [92, b]
  else if 32 ≤ b.toNat ∧ b.toNat < 127 then [b]
  else if b = 7 then lit "\\a"
  else if b = 8 then lit "\\b"
  else if b = 12 then lit "\\f"
  else if b = 10 then lit "\\n"
  else if b = 13 then lit "\\r"
  else if b = 9 then lit "\\t"
  else if b = 11 then lit "\\v"
  else lit "\\x" ++ [lowerhex.getD (b.toNat / 16) 0, lowerhex.getD (b.toNat % 16) 0]

/-- Go `strconv.Quote(s)`, the text the `%q` verb produces, on strings of
ASCII bytes.  The rendering of a byte of 0x80 or more depends on UTF-8
validity and on the Unicode tables of printable runes; such strings are
outside this model and give `none` -/
def Quote (s : GoString) : Option GoString :=
  if s.all (fun b => decide (b.toNat < 128)) then
    some ([34] ++ s.flatMap escapeASCII ++ [34])
  else none

/-! ## Errors -/

/-- The error values of the program, one constructor for each place that
creates one, carrying the operands of that place -/
inductive GoError where
  /-- The sentinel `io.EOF` -/
  | EOF
  /-- An error reported by the serial library, with its text -/
  | io (text : GoString)
  /-- The value `errors.New("the target port is not found")` -/
  | portNotFound
  /-- The value `fmt.Errorf("get ports list: %w", err)` -/
  | getPortsList (err : GoError)
  /-- The value `errors.New("got error response")` -/
  | gotErrorResponse
  /-- The value `fmt.Errorf("invalid response: %q", s)` -/
  | invalidResponse (s : GoString)
  /-- The value `fmt.Errorf("send request: %w", err)` -/
  | sendRequest (err : GoError)
  /-- The value `fmt.Errorf("parse response at %d: %w", i, err)` -/
  | parseResponseAt (i : Nat) (err : GoError)
  deriving DecidableEq, Repr

/-- The text of an error (Go `err.Error()`); `none` where it quotes a string
that `Quote` does not cover -/
def GoError.Error : GoError → Option GoString
  | .EOF => some (lit "EOF")
  | .io text => some text
  | .portNotFound => some (lit "the target port is not found")
  | .getPortsList err => err.Error.map (fun t => lit "get ports list: " ++ t)
  | .gotErrorResponse => some (lit "got error response")
  | .invalidResponse s => (Quote s).map (fun q => lit "invalid response: " ++ q)
  | .sendRequest err => err.Error.map (fun t => lit "send request: " ++ t)
  | .parseResponseAt i err =>
    err.Error.map (fun t => lit "parse response at " ++ lit (Nat.repr i) ++ lit ": " ++ t)

/-- The error that a wrapping error wraps (Go `errors.Unwrap`) -/
def GoError.Unwrap : GoError → Option GoError
  | .getPortsList err => some err
  | .sendRequest err => some err
  | .parseResponseAt _ err => some err
  | _ => none

/-! ## Wire constants, commands and responses -/

/-- The tag that starts every wire line -/
def Prefix : GoString := lit "PW="

/-- The line terminator -/
def Suffix : GoString := lit "\r\n"

/-- The substring of a port name that identifies the device -/
def targetPort : GoString := lit "usbmodem002E1E6204511"

/-- Go `type Request int` -/
structure Request where
  val : Int
  deriving DecidableEq, Repr

def RequestTurnOff : Request := ⟨0⟩
def RequestTurnOn : Request := ⟨1⟩
def RequestInquire : Request := ⟨2⟩

/-- The wire code of a command -/
def Request.String (r : Request) : GoString :=
  if r = RequestTurnOff then lit "0"
  else if r = RequestTurnOn then lit "1"
  else lit "?"

/-- Go `type Response int` -/
structure Response where
  val : Int
  deriving DecidableEq, Repr

def ResponseOff : Response := ⟨0⟩
def ResponseOn : Response := ⟨1⟩
def ResponseOk : Response := ⟨2⟩

/-- The bytes stripped from the end of a received line: NUL and the letter O -/
def cutset : GoString := lit "\x00O"

/-- Parse one received line.  Go returns the pair `(0, err)` on failure; the
placeholder `0` is not a result and is dropped here -/
def ParseResponse (s : GoString) : Except GoError Response :=
  let t := TrimRight s cutset
  if t = Prefix ++ lit "0" then .ok ResponseOff
  else if t = Prefix ++ lit "1" then .ok ResponseOn
  else if t = lit "OK" then .ok ResponseOk
  else if t = lit "ERROR" then .error .gotErrorResponse
  else .error (.invalidResponse s)

deriving instance DecidableEq for Except

/-! ## Port selection -/

/-- The loop of `findPort` over the enumerated ports (the diagnostic line
printed for each port examined is not modelled) -/
def findPort.loop : List GoString → Except GoError GoString
  | [] => .error .portNotFound
  | port :: rest => if Contains port targetPort then .ok port else findPort.loop rest

/-- Select the device port.  The two arguments are what
`serial.GetPortsList()` returned: the port names and the error -/
def findPort (ports : List GoString) (err : Option GoError) : Except GoError GoString :=
  match err with
  | some e => .error (.getPortsList e)
  | none => findPort.loop ports

/-! ## The connection and the timeout guard -/

/-- How one `Read` of the underlying connection turns out against the timer
that `TimeoutReader` starts for it -/
inductive SourceRead where
  /-- The read returns `bs` and `err` before the timer fires -/
  | completes (bs : GoString) (err : Option GoError)
  /-- The timer fires first and the read stays in flight until `Read` has
  returned -/
  | blocks
  /-- The timer fires first, but the read completes while `Read` is still
  running its deferred print: the read goroutine assigns the named results
  `n` and `err` after `return 0, io.EOF` has set them, and the call reports
  `bs` and `err` -/
  | late (bs : GoString) (err : Option GoError)
  deriving DecidableEq, Repr

/-- A connection as one exchange sees it: the error its `Write` returns (if
any) and the outcomes of its successive reads.  Once the listed reads are
used up the connection stays silent: every further read blocks -/
structure Port where
  writeErr : Option GoError
  reads : List SourceRead
  deriving Repr

/-- One read through the timeout guard: the bytes and the error it reports.
The results are the named results `n` and `err`, which the read goroutine
assigns whenever the read completes before the call has returned -/
def TimeoutReader.Read : SourceRead → GoString × Option GoError
  | .completes bs err => (bs, err)
  | .blocks => ([], some .EOF)
  | .late bs err => (bs, err)

/-! ## Line scanning

`bufio.Scanner` as `bufio.NewScanner` sets it up: the split function is
`bufio.ScanLines`, the buffer starts empty, is first allocated with 4096
bytes, doubles when full and never exceeds 64 KiB.  A line ends at a newline;
the newline and one carriage return before it are not part of the token.  The
input ends at the first read that reports an error (end-of-input included),
and what is then left unterminated is a last token unless it is empty. -/

/-- Size of the first allocation of the scanner's buffer -/
def startBufSize : Nat := 4096

/-- The largest size of the scanner's buffer -/
def MaxScanTokenSize : Nat := 64 * 1024

/-- How many reads in a row may bring neither bytes nor an error -/
def maxConsecutiveEmptyReads : Nat := 100

/-- The helper `dropCR` of `bufio.ScanLines`: drop one final carriage return -/
def dropCR (data : GoString) : GoString :=
  if data.getLast? = some 13 then data.dropLast else data

/-- The tokens of the lines completed by the bytes `data` arriving after the
unterminated text `cur`, and the text left unterminated after them -/
def splitLines (cur : GoString) : GoString → List GoString × GoString
  | [] => ([], cur)
  | b :: data =>
    if b = 10 then
      let (lines, rest) := splitLines [] data
      (dropCR cur :: lines, rest)
    else splitLines (cur ++ [b]) data

/-- The last token, made of what is left unterminated when the input ends -/
def finalToken (rest : GoString) : List GoString :=
  if rest = [] then [] else [dropCR rest]

/-- The tokens delivered once the input has ended, from the unterminated text
`pending` and the bytes `bs` of the last read -/
def Scanner.atEOF (pending bs : GoString) : List GoString :=
  (splitLines pending bs).1 ++ finalToken (splitLines pending bs).2

/-- What `Scan` does to its buffer before a read, for a buffer of `bufLen`
bytes that holds `n` unread bytes from offset `start` on: the unread bytes are
moved to the front when they reach the end of the buffer or start beyond its
middle, and a buffer that is then full is doubled, up to the largest size.
The result is the new buffer size and offset, or `none` when the buffer is
full at its largest size (`ErrTooLong`: `Scan` returns false at once) -/
def Scanner.makeRoom (bufLen start n : Nat) : Option (Nat × Nat) :=
  let start := if 0 < start ∧ (start + n = bufLen ∨ bufLen / 2 < start) then 0 else start
  if start + n = bufLen then
    if MaxScanTokenSize ≤ bufLen then none
    else some (min (if bufLen * 2 = 0 then startBufSize else bufLen * 2) MaxScanTokenSize, 0)
  else some (bufLen, start)

/-- The tokens that the calls of `Scan` deliver, one after the other, until
`Scan` returns false.  The buffer has `bufLen` bytes and holds from offset
`start` on the unterminated text `pending`; `empties` counts the reads in a
row that brought nothing; the last argument lists the outcomes of the reads
still to come, after which the source blocks.  A read that returns more bytes
than the buffer has room for ends the input (`ErrBadReadCount`), and so does
a run of more than 100 reads that bring nothing (`io.ErrNoProgress`) -/
def Scanner.lines (bufLen start : Nat) (pending : GoString) (empties : Nat) :
    List SourceRead → List GoString
  | [] =>
    match Scanner.makeRoom bufLen start pending.length with
    | none => []
    | some _ => Scanner.atEOF pending (TimeoutReader.Read .blocks).1
  | r :: reads =>
    match Scanner.makeRoom bufLen start pending.length with
    | none => []
    | some (bufLen, start) =>
      match TimeoutReader.Read r with
      | (bs, err) =>
        if bufLen - (start + pending.length) < bs.length then finalToken pending
        else
          match err with
          | some _ => Scanner.atEOF pending bs
          | none =>
            if bs = [] then
              if maxConsecutiveEmptyReads < empties + 1 then finalToken pending
              else Scanner.lines bufLen start pending (empties + 1) reads
            else
              (splitLines pending bs).1 ++
                Scanner.lines bufLen
                  (start + (pending.length + bs.length - (splitLines pending bs).2.length))
                  (splitLines pending bs).2 0 reads

/-- The lines that a new scanner over the timeout guard reads from a
connection whose reads turn out as listed -/
def Scanner.tokens (reads : List SourceRead) : List GoString :=
  Scanner.lines 0 0 [] 0 reads

/-! ## What a connection delivers

The reply of the device as a sequence of lines on the wire, and the conditions
under which `bufio.Scanner` reads a reply to its end: every read respects the
contract of `io.Reader`, and no line outgrows the buffer. -/

/-- The bytes of a sequence of lines on the wire: every line is followed by
the line terminator -/
def wireLines (ls : List GoString) : GoString :=
  ls.flatMap (fun l => l ++ Suffix)

/-- The lines of a reply made of the terminated lines `ls` followed by the
bytes `last` that no terminator follows -/
def deliveredLines (ls : List GoString) (last : GoString) : List GoString :=
  ls ++ (if last = [] then [] else [last])

/-- The bytes that the reads bring through the timeout guard, up to and
including the first read that reports an error (end-of-input and timeout
included) -/
def received : List SourceRead → GoString
  | [] => []
  | r :: reads =>
    match TimeoutReader.Read r with
    | (bs, some _) => bs
    | (bs, none) => bs ++ received reads

/-- Whether the reads that the scanner makes keep to what it expects of an
`io.Reader`: no read returns more bytes than the buffer it is given has room
for, and no more than 100 reads in a row return neither bytes nor an error.
The arguments are those of `Scanner.lines` -/
def Scanner.readsOk (bufLen start : Nat) (pending : GoString) (empties : Nat) :
    List SourceRead → Bool
  | [] => true
  | r :: reads =>
    match Scanner.makeRoom bufLen start pending.length with
    | none => true
    | some (bufLen, start) =>
      match TimeoutReader.Read r with
      | (bs, err) =>
        if bufLen - (start + pending.length) < bs.length then false
        else
          match err with
          | some _ => true
          | none =>
            if bs = [] then
              if maxConsecutiveEmptyReads < empties + 1 then false
              else Scanner.readsOk bufLen start pending (empties + 1) reads
            else
              Scanner.readsOk bufLen
                (start + (pending.length + bs.length - (splitLines pending bs).2.length))
                (splitLines pending bs).2 0 reads

/-- Every line of `data`, its newline included, fits the largest buffer, and
so does, with a byte to spare, what follows the last newline; `cur` is the
number of bytes of the first line that came before `data` -/
def shortLines (cur : Nat) : GoString → Prop
  | [] => cur < MaxScanTokenSize
  | b :: data =>
    if b = 10 then cur + 1 ≤ MaxScanTokenSize ∧ shortLines 0 data
    else shortLines (cur + 1) data

/-! ## Replies with a line that outgrows the buffer -/

/-- A line of 65536 bytes that parses to Off: `PW=0` padded with the letter O -/
def overlongOff : GoString := lit "PW=0" ++ List.replicate 65532 79

/-- A connection that takes the write and delivers `overlongOff` and then
`OK`, each with its terminator, in reads that fill the buffer handed to them
as the scanner grows it -/
def overlongOffPort : Port :=
  ⟨none, [.completes (lit "PW=0" ++ List.replicate 4092 79) none,
    .completes (List.replicate 4096 79) none,
    .completes (List.replicate 8192 79) none,
    .completes (List.replicate 16384 79) none,
    .completes (List.replicate 32768 79) none,
    .completes (lit "\r\nOK\r\n") none]⟩

/-- A line of 65536 bytes that does not parse: the letter A over and over -/
def overlongJunk : GoString := List.replicate 65536 65

/-- A connection that takes the write and delivers `OK` and then
`overlongJunk`, each with its terminator, in reads that fit the buffer handed
to them -/
def overlongJunkPort : Port :=
  ⟨none, [.completes (lit "OK\r\n") none,
    .completes (List.replicate 4092 65) none,
    .completes (List.replicate 4 65) none,
    .completes (List.replicate 4096 65) none,
    .completes (List.replicate 8192 65) none,
    .completes (List.replicate 16384 65) none,
    .completes (List.replicate 32768 65) none,
    .completes (lit "\r\n") none]⟩

/-! ## One exchange -/

/-- What one call of `SendRequest` does: the buffers it hands to the
connection's `Write`, and what it returns -/
structure Exchange where
  sent : List GoString
  result : Except GoError (List Response)

/-- The read loop of `SendRequest`: `i` counts the lines scanned so far and
`responses` holds the values parsed from them -/
def SendRequest.loop (i : Nat) (responses : List Response) :
    List GoString → Except GoError (List Response)
  | [] => .ok responses
  | text :: rest =>
    match ParseResponse text with
    | .error err => .error (.parseResponseAt i err)
    | .ok res => SendRequest.loop (i + 1) (responses ++ [res]) rest

/-- One request/response exchange over the connection `p` -/
def SendRequest (p : Port) (r : Request) : Exchange :=
  let m := Prefix ++ r.String ++ Suffix
  match p.writeErr with
  | some err => ⟨[m], .error (.sendRequest err)⟩
  | none => ⟨[m], SendRequest.loop 0 [] (Scanner.tokens p.reads)⟩

/-! ## Facts about the string routines -/

/-- Padding made of cutset bytes does not change the trimmed text -/
theorem TrimRight_append_padding (s pad cs : GoString) (h : ∀ b ∈ pad, b ∈ cs) :
    TrimRight (s ++ pad) cs = TrimRight s cs := by
  unfold TrimRight List.rdropWhile
  rw [List.reverse_append]
  congr 1
  have hp : ∀ b ∈ pad.reverse, b ∈ cs := fun b hb => h b (List.mem_reverse.mp hb)
  generalize pad.reverse = q at hp
  induction q with
  | nil => rfl
  | cons b q ih =>
    have hb : b ∈ cs := hp b (List.mem_cons_self _ _)
    simp only [List.cons_append, List.dropWhile_cons, hb, decide_True, if_true]
    exact ih (fun c hc => hp c (List.mem_cons_of_mem _ hc))

/-- What trimming means: the line is the trimmed text followed by padding
from the cutset, and the trimmed text does not end in a cutset byte -/
theorem TrimRight_spec (s cs : GoString) :
    ∃ pad, s = TrimRight s cs ++ pad ∧ (∀ b ∈ pad, b ∈ cs) ∧
      ∀ b, (TrimRight s cs).getLast? = some b → b ∉ cs := by
  refine ⟨s.rtakeWhile (fun b => decide (b ∈ cs)), ?_, ?_, ?_⟩
  · unfold TrimRight List.rdropWhile List.rtakeWhile
    rw [← List.reverse_append, List.takeWhile_append_dropWhile, List.reverse_reverse]
  · intro b hb
    simpa using List.mem_rtakeWhile_imp hb
  · intro b hb
    have hne : TrimRight s cs ≠ [] := by
      intro h0
      rw [h0] at hb
      simp at hb
    have hlast := List.rdropWhile_last_not (fun b => decide (b ∈ cs)) s hne
    rw [List.getLast?_eq_getLast _ hne] at hb
    have hb2 : (TrimRight s cs).getLast hne = b := Option.some.inj hb
    rw [← hb2]
    simpa using hlast

/-- The cutset holds the NUL byte and the letter O, nothing else -/
theorem mem_cutset (b : UInt8) : b ∈ cutset ↔ b = 0 ∨ b = 79 := by
  have h : cutset = [0, 79] := by decide
  simp [h]

/-- A byte string contains another exactly when the other is an infix of it -/
theorem Contains_iff (s sub : GoString) : Contains s sub = true ↔ sub <:+: s := by
  unfold Contains
  rw [List.any_eq_true, List.infix_iff_prefix_suffix]
  constructor
  · rintro ⟨t, ht, hp⟩
    exact ⟨t, List.isPrefixOf_iff_prefix.mp hp, (List.mem_tails _ _).mp ht⟩
  · rintro ⟨t, hp, ht⟩
    exact ⟨t, (List.mem_tails _ _).mpr ht, List.isPrefixOf_iff_prefix.mpr hp⟩

/-! ## Parsing one line -/

/-- The five ways a line can parse, by its trimmed form -/
theorem ParseResponse_cases (s : GoString) :
    (TrimRight s cutset = lit "PW=0" ∧ ParseResponse s = .ok ResponseOff) ∨
    (TrimRight s cutset = lit "PW=1" ∧ ParseResponse s = .ok ResponseOn) ∨
    (TrimRight s cutset = lit "OK" ∧ ParseResponse s = .ok ResponseOk) ∨
    (TrimRight s cutset = lit "ERROR" ∧ ParseResponse s = .error .gotErrorResponse) ∨
    ((TrimRight s cutset ≠ lit "PW=0" ∧ TrimRight s cutset ≠ lit "PW=1" ∧
        TrimRight s cutset ≠ lit "OK" ∧ TrimRight s cutset ≠ lit "ERROR") ∧
      ParseResponse s = .error (.invalidResponse s)) := by
  have h0 : Prefix ++ lit "0" = lit "PW=0" := by decide
  have h1 : Prefix ++ lit "1" = lit "PW=1" := by decide
  simp only [ParseResponse, h0, h1]
  by_cases a : TrimRight s cutset = lit "PW=0"
  · exact Or.inl ⟨a, if_pos a⟩
  by_cases b : TrimRight s cutset = lit "PW=1"
  · exact Or.inr (Or.inl ⟨b, by rw [if_neg a, if_pos b]⟩)
  by_cases c : TrimRight s cutset = lit "OK"
  · exact Or.inr (Or.inr (Or.inl ⟨c, by rw [if_neg a, if_neg b, if_pos c]⟩))
  by_cases d : TrimRight s cutset = lit "ERROR"
  · exact Or.inr (Or.inr (Or.inr (Or.inl ⟨d, by rw [if_neg a, if_neg b, if_neg c, if_pos d]⟩)))
  · exact Or.inr (Or.inr (Or.inr (Or.inr
      ⟨⟨a, b, c, d⟩, by rw [if_neg a, if_neg b, if_neg c, if_neg d]⟩)))

/-- C1: with `t` the line `s` after its trailing NUL bytes and letters O are
removed, `ParseResponse s` gives Off exactly when `t` is `PW=0`, On exactly
when `t` is `PW=1`, Ok exactly when `t` is `OK`, and it succeeds on no other
line; `PW=1O` gives On and `OK` gives Ok. -/
theorem ParseResponse_succeeds_iff (s : GoString) :
    (ParseResponse s = .ok ResponseOff ↔ TrimRight s cutset = lit "PW=0") ∧
    (ParseResponse s = .ok ResponseOn ↔ TrimRight s cutset = lit "PW=1") ∧
    (ParseResponse s = .ok ResponseOk ↔ TrimRight s cutset = lit "OK") ∧
    ((∃ v, ParseResponse s = .ok v) ↔
      TrimRight s cutset = lit "PW=0" ∨ TrimRight s cutset = lit "PW=1" ∨
        TrimRight s cutset = lit "OK") ∧
    ParseResponse (lit "PW=1O") = .ok ResponseOn ∧
    ParseResponse (lit "OK") = .ok ResponseOk := by
  have d01 : lit "PW=0" ≠ lit "PW=1" := by decide
  have d02 : lit "PW=0" ≠ lit "OK" := by decide
  have d12 : lit "PW=1" ≠ lit "OK" := by decide
  have d30 : lit "ERROR" ≠ lit "PW=0" := by decide
  have d31 : lit "ERROR" ≠ lit "PW=1" := by decide
  have d32 : lit "ERROR" ≠ lit "OK" := by decide
  have r01 : ResponseOff ≠ ResponseOn := by decide
  have r02 : ResponseOff ≠ ResponseOk := by decide
  have r12 : ResponseOn ≠ ResponseOk := by decide
  refine ⟨?_, ?_, ?_, ?_, by decide, by decide⟩
  all_goals
    rcases ParseResponse_cases s with ⟨ht, hp⟩ | ⟨ht, hp⟩ | ⟨ht, hp⟩ | ⟨ht, hp⟩ |
      ⟨⟨a, b, c, d⟩, hp⟩
    · simp [ht, hp, d01, d02, r01, r02]
    · simp [ht, hp, d12, d01.symm, r01.symm, r12]
    · simp [ht, hp, d02.symm, d12.symm, r02.symm, r12.symm]
    · simp [ht, hp, d30, d31, d32]
    · simp [hp, a, b, c]

/-- C2: `ParseResponse s` fails exactly when the trimmed line is none of
`PW=0`, `PW=1`, `OK`; the failure is the device error exactly when the trimmed
line is `ERROR`, and otherwise it is the invalid-response error, which carries
the line `s` and whose text is `invalid response: ` followed by the quoted
line; a failing call returns no response value.  `ERROR` gives the device
error and `GARBAGE` the invalid-response error. -/
theorem ParseResponse_fails_iff (s : GoString) :
    ((∃ e, ParseResponse s = .error e) ↔
      TrimRight s cutset ≠ lit "PW=0" ∧ TrimRight s cutset ≠ lit "PW=1" ∧
        TrimRight s cutset ≠ lit "OK") ∧
    (ParseResponse s = .error .gotErrorResponse ↔ TrimRight s cutset = lit "ERROR") ∧
    (∀ e, ParseResponse s = .error e → TrimRight s cutset ≠ lit "ERROR" →
      e = .invalidResponse s) ∧
    (∀ q, Quote s = some q →
      (GoError.invalidResponse s).Error = some (lit "invalid response: " ++ q)) ∧
    (∀ e, ParseResponse s = .error e → ∀ v, ParseResponse s ≠ .ok v) ∧
    ParseResponse (lit "ERROR") = .error .gotErrorResponse ∧
    ParseResponse (lit "GARBAGE") = .error (.invalidResponse (lit "GARBAGE")) ∧
    (GoError.invalidResponse (lit "GARBAGE")).Error =
      some (lit "invalid response: \"GARBAGE\"") := by
  have d30 : lit "ERROR" ≠ lit "PW=0" := by decide
  have d31 : lit "ERROR" ≠ lit "PW=1" := by decide
  have d32 : lit "ERROR" ≠ lit "OK" := by decide
  refine ⟨?_, ?_, ?_, ?_, ?_, by decide, by decide, by decide⟩
  · rcases ParseResponse_cases s with ⟨ht, hp⟩ | ⟨ht, hp⟩ | ⟨ht, hp⟩ | ⟨ht, hp⟩ |
      ⟨⟨a, b, c, d⟩, hp⟩
    · simp [ht, hp]
    · simp [ht, hp]
    · simp [ht, hp]
    · simp [ht, hp, d30, d31, d32]
    · simp [hp, a, b, c]
  · rcases ParseResponse_cases s with ⟨ht, hp⟩ | ⟨ht, hp⟩ | ⟨ht, hp⟩ | ⟨ht, hp⟩ |
      ⟨⟨a, b, c, d⟩, hp⟩
    · simp [ht, hp, d30.symm]
    · simp [ht, hp, d31.symm]
    · simp [ht, hp, d32.symm]
    · simp [ht, hp]
    · simp [hp, d]
  · intro e he hne
    rcases ParseResponse_cases s with ⟨ht, hp⟩ | ⟨ht, hp⟩ | ⟨ht, hp⟩ | ⟨ht, hp⟩ |
      ⟨⟨a, b, c, d⟩, hp⟩
    · rw [hp] at he; cases he
    · rw [hp] at he; cases he
    · rw [hp] at he; cases he
    · exact absurd ht hne
    · rw [hp] at he
      exact (Except.error.inj he).symm
  · intro q hq
    simp [GoError.Error, hq]
  · intro e he v hv
    rw [he] at hv
    cases hv

/-- C9, against the claim: the line made of a space, `PW=0` and a NUL byte
does not parse to Off. -/
theorem ParseResponse_leading_space_not_Off :
    ¬ (ParseResponse (lit " PW=0\x00") = .ok ResponseOff) := by decide

/-- C9, amended: `PW=0` followed by one NUL byte parses to Off; with a space
in front the line fails with the invalid-response error, because only the end
of the line is trimmed. -/
theorem ParseResponse_trailing_NUL :
    ParseResponse (lit "PW=0\x00") = .ok ResponseOff ∧
    ParseResponse (lit " PW=0\x00") = .error (.invalidResponse (lit " PW=0\x00")) := by
  decide

/-- C10, against the claim: `GARBAGE` and `GARBAGE` followed by a NUL byte
have the same trimmed form, yet their parse errors differ: each quotes its
own untrimmed line. -/
theorem ParseResponse_error_differs_on_padding :
    TrimRight (lit "GARBAGE") cutset = TrimRight (lit "GARBAGE\x00") cutset ∧
    ParseResponse (lit "GARBAGE") = .error (.invalidResponse (lit "GARBAGE")) ∧
    ParseResponse (lit "GARBAGE\x00") = .error (.invalidResponse (lit "GARBAGE\x00")) ∧
    (GoError.invalidResponse (lit "GARBAGE")).Error =
      some (lit "invalid response: \"GARBAGE\"") ∧
    (GoError.invalidResponse (lit "GARBAGE\x00")).Error =
      some (lit "invalid response: \"GARBAGE\\x00\"") ∧
    ParseResponse (lit "GARBAGE") ≠ ParseResponse (lit "GARBAGE\x00") := by
  decide

/-- C10, amended: two lines with the same trimmed form parse to the same
response value, or both to the device error, or both to the invalid-response
error, where each error carries its own untrimmed line. -/
theorem ParseResponse_of_same_trimmed (s1 s2 : GoString)
    (h : TrimRight s1 cutset = TrimRight s2 cutset) :
    (∀ v, ParseResponse s1 = .ok v ↔ ParseResponse s2 = .ok v) ∧
    (ParseResponse s1 = .error .gotErrorResponse ↔
      ParseResponse s2 = .error .gotErrorResponse) ∧
    (ParseResponse s1 = .error (.invalidResponse s1) ↔
      ParseResponse s2 = .error (.invalidResponse s2)) ∧
    (ParseResponse s1 = ParseResponse s2 ∨
      (ParseResponse s1 = .error (.invalidResponse s1) ∧
        ParseResponse s2 = .error (.invalidResponse s2))) := by
  have key : ParseResponse s1 = ParseResponse s2 ∨
      (ParseResponse s1 = .error (.invalidResponse s1) ∧
        ParseResponse s2 = .error (.invalidResponse s2)) := by
    have h0 : Prefix ++ lit "0" = lit "PW=0" := by decide
    simp only [ParseResponse, h]
    by_cases a : TrimRight s2 cutset = Prefix ++ lit "0"
    · simp [a]
    by_cases b : TrimRight s2 cutset = Prefix ++ lit "1"
    · simp [a, b]
    by_cases c : TrimRight s2 cutset = lit "OK"
    · simp [a, b, c]
    by_cases d : TrimRight s2 cutset = lit "ERROR"
    · simp [a, b, c, d]
    · simp [a, b, c, d]
  refine ⟨?_, ?_, ?_, key⟩
  · intro v
    rcases key with e | ⟨e1, e2⟩
    · rw [e]
    · simp [e1, e2]
  · rcases key with e | ⟨e1, e2⟩
    · rw [e]
    · simp [e1, e2]
  · rcases key with e | ⟨e1, e2⟩
    · rcases ParseResponse_cases s1 with ⟨ht, hp⟩ | ⟨ht, hp⟩ | ⟨ht, hp⟩ | ⟨ht, hp⟩ |
        ⟨_, hp⟩ <;>
      rcases ParseResponse_cases s2 with ⟨ht2, hp2⟩ | ⟨ht2, hp2⟩ | ⟨ht2, hp2⟩ | ⟨ht2, hp2⟩ |
        ⟨_, hp2⟩ <;>
      simp_all
    · simp [e1, e2]

/-- The amended C10 at `PW=1` and `PW=1` padded with a letter O and a NUL -/
theorem ParseResponse_of_same_trimmed_witness :
    TrimRight (lit "PW=1") cutset = TrimRight (lit "PW=1O\x00") cutset ∧
    (ParseResponse (lit "PW=1") = ParseResponse (lit "PW=1O\x00") ∨
      (ParseResponse (lit "PW=1") = .error (.invalidResponse (lit "PW=1")) ∧
        ParseResponse (lit "PW=1O\x00") = .error (.invalidResponse (lit "PW=1O\x00")))) :=
  ⟨by decide, (ParseResponse_of_same_trimmed (lit "PW=1") (lit "PW=1O\x00") (by decide)).2.2.2⟩

/-! ## Port selection -/

/-- The selection loop returns the first port that contains the target -/
theorem findPort_loop_ok_iff (ports : List GoString) (port : GoString) :
    findPort.loop ports = .ok port ↔
      ∃ pre post, ports = pre ++ port :: post ∧ targetPort <:+: port ∧
        ∀ q ∈ pre, ¬ targetPort <:+: q := by
  induction ports with
  | nil => simp [findPort.loop]
  | cons a rest ih =>
    unfold findPort.loop
    by_cases ha : Contains a targetPort = true
    · have hin := (Contains_iff a targetPort).mp ha
      rw [if_pos ha]
      constructor
      · intro h
        have hap : a = port := Except.ok.inj h
        exact ⟨[], rest, by rw [hap]; rfl, hap ▸ hin, by simp⟩
      · rintro ⟨pre, post, hsplit, _, hpre⟩
        cases pre with
        | nil =>
          have hap : a = port := List.head_eq_of_cons_eq hsplit
          rw [hap]
        | cons b pre =>
          have hab : a = b := List.head_eq_of_cons_eq hsplit
          exact absurd (hab ▸ hin) (hpre b (List.mem_cons_self _ _))
    · have hnin : ¬ targetPort <:+: a := fun h => ha ((Contains_iff a targetPort).mpr h)
      rw [if_neg ha, ih]
      constructor
      · rintro ⟨pre, post, hsplit, hp, hpre⟩
        refine ⟨a :: pre, post, by rw [hsplit]; rfl, hp, ?_⟩
        intro q hq
        rcases List.mem_cons.mp hq with rfl | hq
        · exact hnin
        · exact hpre q hq
      · rintro ⟨pre, post, hsplit, hp, hpre⟩
        cases pre with
        | nil =>
          have hap : a = port := List.head_eq_of_cons_eq hsplit
          exact absurd (hap ▸ hp) hnin
        | cons b pre =>
          refine ⟨pre, post, List.tail_eq_of_cons_eq hsplit, hp, ?_⟩
          intro q hq
          exact hpre q (List.mem_cons_of_mem _ hq)

/-- The selection loop fails, and then with the not-found error, exactly when
no port contains the target -/
theorem findPort_loop_error_iff (ports : List GoString) (e : GoError) :
    findPort.loop ports = .error e ↔
      e = .portNotFound ∧ ∀ q ∈ ports, ¬ targetPort <:+: q := by
  induction ports with
  | nil =>
    simp only [findPort.loop, List.not_mem_nil, false_imp_iff, implies_true, and_true]
    constructor
    · intro h; exact (Except.error.inj h).symm
    · intro h; rw [h]
  | cons a rest ih =>
    unfold findPort.loop
    by_cases ha : Contains a targetPort = true
    · have hin := (Contains_iff a targetPort).mp ha
      rw [if_pos ha]
      constructor
      · intro h; cases h
      · rintro ⟨_, hall⟩
        exact absurd hin (hall a (List.mem_cons_self _ _))
    · have hnin : ¬ targetPort <:+: a := fun h => ha ((Contains_iff a targetPort).mpr h)
      rw [if_neg ha, ih]
      constructor
      · rintro ⟨he, hall⟩
        refine ⟨he, ?_⟩
        intro q hq
        rcases List.mem_cons.mp hq with rfl | hq
        · exact hnin
        · exact hall q hq
      · rintro ⟨he, hall⟩
        exact ⟨he, fun q hq => hall q (List.mem_cons_of_mem _ hq)⟩

/-- C7: on the list of ports that the enumeration returned, `findPort` returns
the first port whose name contains `usbmodem002E1E6204511` (no port before it
contains it), and it fails, with the not-found error, exactly when no port
contains that text; of `/dev/tty.usbserial1` and
`/dev/tty.usbmodem002E1E6204511` it returns the second. -/
theorem findPort_first_match (ports : List GoString) :
    (∀ port, findPort ports none = .ok port ↔
      ∃ pre post, ports = pre ++ port :: post ∧
        lit "usbmodem002E1E6204511" <:+: port ∧
        ∀ q ∈ pre, ¬ lit "usbmodem002E1E6204511" <:+: q) ∧
    (findPort ports none = .error .portNotFound ↔
      ∀ q ∈ ports, ¬ lit "usbmodem002E1E6204511" <:+: q) ∧
    (∀ e, findPort ports none = .error e → e = .portNotFound) ∧
    findPort [lit "/dev/tty.usbserial1", lit "/dev/tty.usbmodem002E1E6204511"] none =
      .ok (lit "/dev/tty.usbmodem002E1E6204511") := by
  refine ⟨?_, ?_, ?_, by decide⟩
  · intro port
    exact findPort_loop_ok_iff ports port
  · have h := findPort_loop_error_iff ports .portNotFound
    simpa [targetPort, findPort] using h
  · intro e he
    exact ((findPort_loop_error_iff ports e).mp he).1

/-! ## One exchange -/

/-- When every remaining line parses, the read loop returns the values
collected so far followed by the value of each remaining line, in order -/
theorem SendRequest_loop_ok (lines : List GoString) (vs : List Response)
    (h : List.Forall₂ (fun text v => ParseResponse text = .ok v) lines vs)
    (i : Nat) (responses : List Response) :
    SendRequest.loop i responses lines = .ok (responses ++ vs) := by
  induction h generalizing i responses with
  | nil => simp [SendRequest.loop]
  | cons hp _ ih =>
    unfold SendRequest.loop
    rw [hp]
    simp only
    rw [ih, List.append_assoc]
    rfl

/-- When the lines before `text` parse and `text` does not, the read loop
returns the error of `text` annotated with its index -/
theorem SendRequest_loop_error (pre : List GoString) (text : GoString) (post : List GoString)
    (e : GoError) (hpre : ∀ l ∈ pre, ∃ v, ParseResponse l = .ok v)
    (he : ParseResponse text = .error e) (i : Nat) (responses : List Response) :
    SendRequest.loop i responses (pre ++ text :: post) =
      .error (.parseResponseAt (i + pre.length) e) := by
  induction pre generalizing i responses with
  | nil =>
    simp only [List.nil_append, List.length_nil, Nat.add_zero]
    unfold SendRequest.loop
    rw [he]
  | cons a pre ih =>
    obtain ⟨v, hv⟩ := hpre a (List.mem_cons_self _ _)
    simp only [List.cons_append, List.length_cons]
    unfold SendRequest.loop
    rw [hv]
    simp only
    rw [ih (fun l hl => hpre l (List.mem_cons_of_mem _ hl))]
    congr 2
    omega

/-- Lines that all parse have a list of values, one per line -/
theorem exists_values_of_all_parse (lines : List GoString)
    (h : ∀ l ∈ lines, ∃ v, ParseResponse l = .ok v) :
    ∃ vs, List.Forall₂ (fun text v => ParseResponse text = .ok v) lines vs := by
  induction lines with
  | nil => exact ⟨[], List.Forall₂.nil⟩
  | cons a rest ih =>
    obtain ⟨v, hv⟩ := h a (List.mem_cons_self _ _)
    obtain ⟨vs, hvs⟩ := ih (fun l hl => h l (List.mem_cons_of_mem _ hl))
    exact ⟨v :: vs, List.Forall₂.cons hv hvs⟩

/-- A list with a line that fails to parse splits at the first such line -/
theorem exists_first_failure (lines : List GoString)
    (h : ∃ l ∈ lines, ∃ e, ParseResponse l = .error e) :
    ∃ pre text post e, lines = pre ++ text :: post ∧
      (∀ l ∈ pre, ∃ v, ParseResponse l = .ok v) ∧ ParseResponse text = .error e := by
  induction lines with
  | nil =>
    obtain ⟨l, hl, _⟩ := h
    cases hl
  | cons a rest ih =>
    cases ha : ParseResponse a with
    | error e => exact ⟨[], a, rest, e, rfl, by simp, ha⟩
    | ok v =>
      have hrest : ∃ l ∈ rest, ∃ e, ParseResponse l = .error e := by
        obtain ⟨l, hl, e, he⟩ := h
        rcases List.mem_cons.mp hl with rfl | hl
        · rw [ha] at he; cases he
        · exact ⟨l, hl, e, he⟩
      obtain ⟨pre, text, post, e, hsplit, hpre, he⟩ := ih hrest
      refine ⟨a :: pre, text, post, e, by rw [hsplit]; rfl, ?_, he⟩
      intro l hl
      rcases List.mem_cons.mp hl with rfl | hl
      · exact ⟨v, ha⟩
      · exact hpre l hl

/-- Reads that bring no bytes give the scanner no line -/
theorem Scanner_lines_of_no_bytes (reads : List SourceRead)
    (h : ∀ rd ∈ reads, (TimeoutReader.Read rd).1 = []) (bufLen start empties : Nat) :
    Scanner.lines bufLen start [] empties reads = [] := by
  induction reads generalizing bufLen start empties with
  | nil =>
    unfold Scanner.lines
    cases Scanner.makeRoom bufLen start ([] : GoString).length <;> rfl
  | cons rd reads ih =>
    have hrd := h rd (List.mem_cons_self _ _)
    unfold Scanner.lines
    cases Scanner.makeRoom bufLen start ([] : GoString).length with
    | none => rfl
    | some room =>
      obtain ⟨bufLen1, start1⟩ := room
      rcases hread : TimeoutReader.Read rd with ⟨bs, err⟩
      rw [hread] at hrd
      simp only at hrd
      subst hrd
      simp only
      split
      · rfl
      · cases err with
        | some e => rfl
        | none =>
          simp only [if_true]
          split
          · rfl
          · exact ih (fun r hr => h r (List.mem_cons_of_mem _ hr)) _ _ _

/-- The bytes of one read that fits the first buffer, followed by silence,
are scanned into their complete lines and the unterminated rest -/
theorem Scanner_tokens_of_one_read (bs : GoString) (hne : bs ≠ [])
    (hlen : bs.length ≤ startBufSize) :
    Scanner.tokens [.completes bs none] = Scanner.atEOF [] bs := by
  have hroom : Scanner.makeRoom 0 0 ([] : GoString).length = some (startBufSize, 0) := by decide
  have hfit : ¬ (startBufSize - (0 + ([] : GoString).length) < bs.length) := by
    simp only [List.length_nil, Nat.add_zero, Nat.sub_zero]
    omega
  unfold Scanner.tokens Scanner.lines
  rw [hroom]
  simp only [TimeoutReader.Read, if_neg hfit, if_neg hne]
  unfold Scanner.lines
  have hsome : ∀ st n, ∃ room, Scanner.makeRoom startBufSize st n = some room := by
    intro st n
    unfold Scanner.makeRoom
    have hsmall : ¬ MaxScanTokenSize ≤ startBufSize := by decide
    simp only [hsmall, if_false]
    split <;> split <;> exact ⟨_, rfl⟩
  obtain ⟨room, hr⟩ := hsome
    (0 + (([] : GoString).length + bs.length - (splitLines [] bs).2.length))
    (splitLines [] bs).2.length
  rw [hr]
  simp [Scanner.atEOF, TimeoutReader.Read, splitLines]

/-! ## Scanning what a connection delivers -/

/-- Scanning no byte leaves the unterminated text as it is -/
theorem splitLines_nil (cur : GoString) : splitLines cur [] = ([], cur) := by
  unfold splitLines
  rfl

/-- Scanning one more byte: a newline completes the line in progress, any
other byte extends it -/
theorem splitLines_cons (cur : GoString) (b : UInt8) (data : GoString) :
    splitLines cur (b :: data) =
      if b = 10 then (dropCR cur :: (splitLines [] data).1, (splitLines [] data).2)
      else splitLines (cur ++ [b]) data := by
  conv => lhs; unfold splitLines

/-- Bytes without a newline complete no line -/
theorem splitLines_of_no_newline (cur data : GoString) (h : (10 : UInt8) ∉ data) :
    splitLines cur data = ([], cur ++ data) := by
  induction data generalizing cur with
  | nil => simp [splitLines_nil]
  | cons b data ih =>
    have hb : b ≠ 10 := fun hb => h (hb ▸ List.mem_cons_self _ _)
    have hd : (10 : UInt8) ∉ data := fun hd => h (List.mem_cons_of_mem _ hd)
    rw [splitLines_cons, if_neg hb, ih _ hd]
    simp

/-- Splitting bytes that arrive in two parts -/
theorem splitLines_append (cur d1 d2 : GoString) :
    splitLines cur (d1 ++ d2) =
      ((splitLines cur d1).1 ++ (splitLines (splitLines cur d1).2 d2).1,
        (splitLines (splitLines cur d1).2 d2).2) := by
  induction d1 generalizing cur with
  | nil => simp [splitLines_nil]
  | cons b d1 ih =>
    simp only [List.cons_append, splitLines_cons]
    by_cases hb : b = 10
    · simp only [if_pos hb]
      rw [ih]
      rfl
    · simp only [if_neg hb]
      rw [ih]

/-- What is left unterminated holds no newline -/
theorem splitLines_rest_no_newline (cur data : GoString) (h : (10 : UInt8) ∉ cur) :
    (10 : UInt8) ∉ (splitLines cur data).2 := by
  induction data generalizing cur with
  | nil => simpa [splitLines_nil] using h
  | cons b data ih =>
    rw [splitLines_cons]
    by_cases hb : b = 10
    · simp only [if_pos hb]
      exact ih [] (by simp)
    · simp only [if_neg hb]
      apply ih
      intro hmem
      rcases List.mem_append.mp hmem with h1 | h1
      · exact h h1
      · exact hb (List.mem_singleton.mp h1).symm

/-- What is left unterminated is no longer than what was there -/
theorem splitLines_rest_length (cur data : GoString) :
    (splitLines cur data).2.length ≤ cur.length + data.length := by
  induction data generalizing cur with
  | nil => simp [splitLines_nil]
  | cons b data ih =>
    rw [splitLines_cons]
    by_cases hb : b = 10
    · simp only [if_pos hb]
      have := ih []
      simp only [List.length_nil, List.length_cons] at this ⊢
      omega
    · simp only [if_neg hb]
      have := ih (cur ++ [b])
      simp only [List.length_append, List.length_cons, List.length_nil] at this ⊢
      omega

/-- Short lines leave the line in progress shorter than the largest buffer -/
theorem shortLines_lt (cur : Nat) (data : GoString) (h : shortLines cur data) :
    cur < MaxScanTokenSize := by
  induction data generalizing cur with
  | nil => exact h
  | cons b data ih =>
    unfold shortLines at h
    by_cases hb : b = 10
    · rw [if_pos hb] at h
      omega
    · rw [if_neg hb] at h
      have := ih _ h
      omega

/-- Short lines stay short after a part of them has been scanned -/
theorem shortLines_append (cur d1 d2 : GoString)
    (h : shortLines cur.length (d1 ++ d2)) :
    shortLines (splitLines cur d1).2.length d2 := by
  induction d1 generalizing cur with
  | nil => simpa [splitLines_nil] using h
  | cons b d1 ih =>
    simp only [List.cons_append] at h
    unfold shortLines at h
    rw [splitLines_cons]
    by_cases hb : b = 10
    · rw [if_pos hb] at h
      simp only [if_pos hb]
      exact ih [] h.2
    · rw [if_neg hb] at h
      simp only [if_neg hb]
      apply ih
      simpa using h

/-- A buffer whose unread bytes are fewer than the largest size has room
made, within the largest size -/
theorem makeRoom_some (bufLen start n : Nat) (hinv : start + n ≤ bufLen)
    (hmax : bufLen ≤ MaxScanTokenSize) (hn : n < MaxScanTokenSize) :
    ∃ b s, Scanner.makeRoom bufLen start n = some (b, s) ∧ s + n ≤ b ∧
      b ≤ MaxScanTokenSize := by
  have h64 : MaxScanTokenSize = 65536 := by decide
  have h4 : startBufSize = 4096 := by decide
  rw [h64] at hmax hn ⊢
  by_cases hs : 0 < start ∧ (start + n = bufLen ∨ bufLen / 2 < start)
  · by_cases hfull : 0 + n = bufLen
    · have hgrow : ¬ 65536 ≤ bufLen := by omega
      refine ⟨min (if bufLen * 2 = 0 then startBufSize else bufLen * 2) 65536, 0, ?_, ?_, ?_⟩
      · simp only [Scanner.makeRoom, h64, if_pos hs, if_pos hfull, if_neg hgrow]
      · rw [h4, Nat.min_def]
        split <;> split <;> omega
      · exact Nat.min_le_right _ _
    · exact ⟨bufLen, 0, by simp only [Scanner.makeRoom, if_pos hs, if_neg hfull], by omega, hmax⟩
  · by_cases hfull : start + n = bufLen
    · have hgrow : ¬ 65536 ≤ bufLen := by omega
      have hstart : start = 0 := by
        rcases Nat.eq_zero_or_pos start with h0 | hpos
        · exact h0
        · exact absurd ⟨hpos, Or.inl hfull⟩ hs
      refine ⟨min (if bufLen * 2 = 0 then startBufSize else bufLen * 2) 65536, 0, ?_, ?_, ?_⟩
      · simp only [Scanner.makeRoom, h64, if_neg hs, if_pos hfull, if_neg hgrow]
      · rw [h4, Nat.min_def]
        split <;> split <;> omega
      · exact Nat.min_le_right _ _
    · exact ⟨bufLen, start, by simp only [Scanner.makeRoom, if_neg hs, if_neg hfull], by omega,
        hmax⟩

/-- The tokens after the input has ended, for bytes that arrive in two parts -/
theorem atEOF_append (pending bs more : GoString) :
    (splitLines pending bs).1 ++ Scanner.atEOF (splitLines pending bs).2 more =
      Scanner.atEOF pending (bs ++ more) := by
  unfold Scanner.atEOF
  rw [splitLines_append]
  simp

/-- The scanner reads a well-behaved connection to its end: when no read
oversteps the buffer, empty reads do not pile up and every line fits the
largest buffer, the tokens are the lines of all the bytes received -/
theorem Scanner_lines_eq_atEOF (reads : List SourceRead) (bufLen start : Nat)
    (pending : GoString) (empties : Nat)
    (hinv : start + pending.length ≤ bufLen) (hmax : bufLen ≤ MaxScanTokenSize)
    (hnl : (10 : UInt8) ∉ pending)
    (hok : Scanner.readsOk bufLen start pending empties reads = true)
    (hshort : shortLines pending.length (received reads)) :
    Scanner.lines bufLen start pending empties reads =
      Scanner.atEOF pending (received reads) := by
  induction reads generalizing bufLen start pending empties with
  | nil =>
    have hlt := shortLines_lt _ _ hshort
    obtain ⟨b, s, hroom, _, _⟩ := makeRoom_some bufLen start pending.length hinv hmax hlt
    unfold Scanner.lines
    rw [hroom]
    rfl
  | cons r reads ih =>
    have hlt := shortLines_lt _ _ hshort
    obtain ⟨b, s, hroom, hinv1, hmax1⟩ :=
      makeRoom_some bufLen start pending.length hinv hmax hlt
    unfold Scanner.lines
    unfold Scanner.readsOk at hok
    unfold received at hshort ⊢
    rw [hroom] at hok ⊢
    rcases hread : TimeoutReader.Read r with ⟨bs, err⟩
    rw [hread] at hok hshort
    simp only at hok hshort ⊢
    by_cases hfit : b - (s + pending.length) < bs.length
    · rw [if_pos hfit] at hok
      cases hok
    · rw [if_neg hfit] at hok ⊢
      cases err with
      | some e => rfl
      | none =>
        simp only at hok hshort ⊢
        by_cases hbs : bs = []
        · subst hbs
          simp only [if_true] at hok ⊢
          by_cases hemp : maxConsecutiveEmptyReads < empties + 1
          · rw [if_pos hemp] at hok
            cases hok
          · rw [if_neg hemp] at hok ⊢
            rw [ih b s pending (empties + 1) hinv1 hmax1 hnl hok (by simpa using hshort)]
            simp
        · rw [if_neg hbs] at hok ⊢
          have hlen := splitLines_rest_length pending bs
          rw [ih b _ (splitLines pending bs).2 0 (by omega) hmax1
            (splitLines_rest_no_newline pending bs hnl) hok
            (shortLines_append pending bs _ hshort)]
          exact atEOF_append pending bs _

/-- A carriage return at the end of a line is dropped from its token -/
theorem dropCR_append_CR (x : GoString) : dropCR (x ++ [13]) = x := by
  simp [dropCR]

/-- The line terminator is a carriage return and a newline -/
theorem Suffix_eq : Suffix = [13, 10] := by decide

/-- The bytes of lines on the wire scan back into these lines -/
theorem splitLines_wireLines (ls : List GoString) (last : GoString)
    (hls : ∀ l ∈ ls, (10 : UInt8) ∉ l) (hlast : (10 : UInt8) ∉ last) :
    splitLines [] (wireLines ls ++ last) = (ls, last) := by
  induction ls with
  | nil =>
    rw [splitLines_of_no_newline _ _ (by simpa [wireLines] using hlast)]
    simp [wireLines]
  | cons l ls ih =>
    have hl := hls l (List.mem_cons_self _ _)
    have hrest := ih (fun x hx => hls x (List.mem_cons_of_mem _ hx))
    have hw : wireLines (l :: ls) ++ last = l ++ (13 :: 10 :: (wireLines ls ++ last)) := by
      simp [wireLines, Suffix_eq]
    rw [hw, splitLines_append, splitLines_of_no_newline _ _ hl, splitLines_cons,
      if_neg (by decide), splitLines_cons, if_pos rfl, hrest]
    simp [dropCR_append_CR]

/-- Bytes without a newline only lengthen the line in progress -/
theorem shortLines_append_no_newline (cur : Nat) (l more : GoString)
    (hl : (10 : UInt8) ∉ l) :
    shortLines cur (l ++ more) ↔ shortLines (cur + l.length) more := by
  induction l generalizing cur with
  | nil => simp
  | cons b l ih =>
    have hb : b ≠ 10 := fun hb => hl (hb ▸ List.mem_cons_self _ _)
    have hl2 : (10 : UInt8) ∉ l := fun h => hl (List.mem_cons_of_mem _ h)
    simp only [List.cons_append, List.length_cons]
    conv => lhs; unfold shortLines
    rw [if_neg hb, ih _ hl2]
    have : cur + 1 + l.length = cur + (l.length + 1) := by omega
    rw [this]

/-- Lines on the wire that fit the largest buffer with their terminator are
short lines -/
theorem shortLines_wireLines (ls : List GoString) (last : GoString)
    (hls : ∀ l ∈ ls, (10 : UInt8) ∉ l ∧ l.length + 2 ≤ MaxScanTokenSize)
    (hlast : (10 : UInt8) ∉ last) (hlen : last.length < MaxScanTokenSize) :
    shortLines 0 (wireLines ls ++ last) := by
  induction ls with
  | nil =>
    have h := (shortLines_append_no_newline 0 last [] hlast).mpr
    simp only [List.append_nil, Nat.zero_add] at h
    simpa [wireLines] using h (by unfold shortLines; exact hlen)
  | cons l ls ih =>
    obtain ⟨hl, hlen2⟩ := hls l (List.mem_cons_self _ _)
    have hrest := ih (fun x hx => hls x (List.mem_cons_of_mem _ hx))
    have hw : wireLines (l :: ls) ++ last = l ++ (13 :: 10 :: (wireLines ls ++ last)) := by
      simp [wireLines, Suffix_eq]
    rw [hw, shortLines_append_no_newline _ _ _ hl]
    unfold shortLines
    rw [if_neg (by decide)]
    unfold shortLines
    rw [if_pos rfl]
    exact ⟨by omega, hrest⟩

/-- Unterminated bytes that do not end in a carriage return are their own
last token -/
theorem finalToken_of_no_CR (last : GoString) (h : last.getLast? ≠ some 13) :
    finalToken last = if last = [] then [] else [last] := by
  simp [finalToken, dropCR, h]

/-- The scanner delivers the lines that the connection delivers: for a
connection whose reads are well behaved and bring, up to the first error or
timeout, the lines `ls` with their terminators and then the unterminated
bytes `last`, all within the largest buffer, the tokens are these lines -/
theorem Scanner_tokens_of_delivered (reads : List SourceRead) (ls : List GoString)
    (last : GoString)
    (hrecv : received reads = wireLines ls ++ last)
    (hok : Scanner.readsOk 0 0 [] 0 reads = true)
    (hls : ∀ l ∈ ls, (10 : UInt8) ∉ l ∧ l.length + 2 ≤ MaxScanTokenSize)
    (hlast : (10 : UInt8) ∉ last ∧ last.getLast? ≠ some 13 ∧
      last.length < MaxScanTokenSize) :
    Scanner.tokens reads = deliveredLines ls last := by
  unfold Scanner.tokens
  rw [Scanner_lines_eq_atEOF reads 0 0 [] 0 (Nat.le_refl _) (Nat.zero_le _) (by simp) hok
    (by rw [hrecv]; exact shortLines_wireLines ls last hls hlast.1 hlast.2.2)]
  unfold Scanner.atEOF
  rw [hrecv, splitLines_wireLines ls last (fun l hl => (hls l hl).1) hlast.1,
    finalToken_of_no_CR last hlast.2.1]
  rfl

/-! ## A line that outgrows the buffer -/

/-- One read that brings bytes and no error: its complete lines are
delivered and the scan goes on with what is left -/
theorem Scanner_lines_read (bufLen start : Nat) (pending : GoString) (empties : Nat)
    (bs : GoString) (reads : List SourceRead) (n b s : Nat)
    (hn : pending.length = n)
    (hroom : Scanner.makeRoom bufLen start n = some (b, s))
    (hfit : s + n + bs.length ≤ b) (hne : bs ≠ []) :
    Scanner.lines bufLen start pending empties (.completes bs none :: reads) =
      (splitLines pending bs).1 ++
        Scanner.lines b (s + (n + bs.length - (splitLines pending bs).2.length))
          (splitLines pending bs).2 0 reads := by
  have hfit2 : ¬ (b - (s + pending.length) < bs.length) := by omega
  conv => lhs; unfold Scanner.lines
  rw [hn, hroom]
  simp only [TimeoutReader.Read]
  rw [hn] at hfit2
  rw [if_neg hfit2, if_neg hne]

/-- The same read, seen by the check of the reads -/
theorem Scanner_readsOk_read (bufLen start : Nat) (pending : GoString) (empties : Nat)
    (bs : GoString) (reads : List SourceRead) (n b s : Nat)
    (hn : pending.length = n)
    (hroom : Scanner.makeRoom bufLen start n = some (b, s))
    (hfit : s + n + bs.length ≤ b) (hne : bs ≠ []) :
    Scanner.readsOk bufLen start pending empties (.completes bs none :: reads) =
      Scanner.readsOk b (s + (n + bs.length - (splitLines pending bs).2.length))
        (splitLines pending bs).2 0 reads := by
  have hfit2 : ¬ (b - (s + pending.length) < bs.length) := by omega
  conv => lhs; unfold Scanner.readsOk
  rw [hn, hroom]
  simp only [TimeoutReader.Read]
  rw [hn] at hfit2
  rw [if_neg hfit2, if_neg hne]

/-- A read that brings bytes without a newline only extends the line in
progress -/
theorem Scanner_lines_read_no_newline (bufLen start : Nat) (pending : GoString)
    (empties : Nat) (bs : GoString) (reads : List SourceRead) (n b s : Nat)
    (hn : pending.length = n)
    (hroom : Scanner.makeRoom bufLen start n = some (b, s))
    (hfit : s + n + bs.length ≤ b) (hne : bs ≠ []) (hnl : (10 : UInt8) ∉ bs) :
    Scanner.lines bufLen start pending empties (.completes bs none :: reads) =
      Scanner.lines b s (pending ++ bs) 0 reads := by
  rw [Scanner_lines_read bufLen start pending empties bs reads n b s hn hroom hfit hne,
    splitLines_of_no_newline pending bs hnl]
  simp only [List.nil_append, List.length_append, hn, Nat.sub_self, Nat.add_zero]

/-- The same read, seen by the check of the reads -/
theorem Scanner_readsOk_read_no_newline (bufLen start : Nat) (pending : GoString)
    (empties : Nat) (bs : GoString) (reads : List SourceRead) (n b s : Nat)
    (hn : pending.length = n)
    (hroom : Scanner.makeRoom bufLen start n = some (b, s))
    (hfit : s + n + bs.length ≤ b) (hne : bs ≠ []) (hnl : (10 : UInt8) ∉ bs) :
    Scanner.readsOk bufLen start pending empties (.completes bs none :: reads) =
      Scanner.readsOk b s (pending ++ bs) 0 reads := by
  rw [Scanner_readsOk_read bufLen start pending empties bs reads n b s hn hroom hfit hne,
    splitLines_of_no_newline pending bs hnl]
  simp only [List.length_append, hn, Nat.sub_self, Nat.add_zero]

/-- A buffer that is full at its largest size ends the scan with no token -/
theorem Scanner_lines_too_long (bufLen start : Nat) (pending : GoString) (empties : Nat)
    (reads : List SourceRead) (n : Nat) (hn : pending.length = n)
    (hroom : Scanner.makeRoom bufLen start n = none) :
    Scanner.lines bufLen start pending empties reads = [] := by
  cases reads <;> (unfold Scanner.lines; rw [hn, hroom])

/-- The same state, seen by the check of the reads: no read is made -/
theorem Scanner_readsOk_too_long (bufLen start : Nat) (pending : GoString) (empties : Nat)
    (reads : List SourceRead) (n : Nat) (hn : pending.length = n)
    (hroom : Scanner.makeRoom bufLen start n = none) :
    Scanner.readsOk bufLen start pending empties reads = true := by
  cases reads
  · rfl
  · unfold Scanner.readsOk
    rw [hn, hroom]

/-- A run of one byte repeated is not empty -/
theorem replicate_ne_nil_of_pos (n : Nat) (a : UInt8) (h : 0 < n) :
    List.replicate n a ≠ [] := by
  intro e
  have hlen := congrArg List.length e
  rw [List.length_replicate, List.length_nil] at hlen
  omega

/-- A run of a byte other than the newline holds no newline -/
theorem newline_not_mem_replicate (n : Nat) (a : UInt8) (h : a ≠ 10) :
    (10 : UInt8) ∉ List.replicate n a :=
  fun hm => h (List.mem_replicate.mp hm).2.symm

/-- A read of bytes without a newline, for the tokens and for the check of
the reads at once -/
theorem Scanner_step_no_newline (bufLen start : Nat) (pending : GoString)
    (empties : Nat) (bs : GoString) (reads : List SourceRead) (n b s : Nat)
    (hn : pending.length = n)
    (hroom : Scanner.makeRoom bufLen start n = some (b, s))
    (hfit : s + n + bs.length ≤ b) (hne : bs ≠ []) (hnl : (10 : UInt8) ∉ bs) :
    (Scanner.lines bufLen start pending empties (.completes bs none :: reads),
      Scanner.readsOk bufLen start pending empties (.completes bs none :: reads)) =
    (Scanner.lines b s (pending ++ bs) 0 reads,
      Scanner.readsOk b s (pending ++ bs) 0 reads) := by
  rw [Scanner_lines_read_no_newline bufLen start pending empties bs reads n b s hn hroom hfit
      hne hnl,
    Scanner_readsOk_read_no_newline bufLen start pending empties bs reads n b s hn hroom hfit
      hne hnl]

/-- A full buffer of the largest size, for the tokens and for the check of the
reads at once -/
theorem Scanner_step_too_long (bufLen start : Nat) (pending : GoString) (empties : Nat)
    (reads : List SourceRead) (n : Nat) (hn : pending.length = n)
    (hroom : Scanner.makeRoom bufLen start n = none) :
    (Scanner.lines bufLen start pending empties reads,
      Scanner.readsOk bufLen start pending empties reads) = ([], true) := by
  rw [Scanner_lines_too_long bufLen start pending empties reads n hn hroom,
    Scanner_readsOk_too_long bufLen start pending empties reads n hn hroom]

/-- On the connection `overlongOffPort` every read keeps to its buffer, and
the scanner gives up before any line is complete -/
theorem Scanner_on_overlongOffPort :
    (Scanner.tokens overlongOffPort.reads,
      Scanner.readsOk 0 0 [] 0 overlongOffPort.reads) = ([], true) := by
  have l4 : (lit "PW=0").length = 4 := by decide
  have n4 : (10 : UInt8) ∉ lit "PW=0" := by decide
  have hO : (79 : UInt8) ≠ 10 := by decide
  unfold Scanner.tokens overlongOffPort
  simp only
  rw [Scanner_step_no_newline 0 0 [] _ _ _ 0 4096 0 rfl (by decide)
    (by simp only [List.length_append, List.length_replicate, l4]; omega)
    (by
      intro e
      have hlen := congrArg List.length e
      simp only [List.length_append, List.length_replicate, List.length_nil, l4] at hlen
      omega)
    (by
      intro hm
      rcases List.mem_append.mp hm with h1 | h1
      · exact n4 h1
      · exact newline_not_mem_replicate _ _ hO h1)]
  rw [Scanner_step_no_newline 4096 0 _ _ _ _ 4096 8192 0
    (by simp only [List.length_append, List.length_replicate, List.length_nil, l4])
    (by decide) (by simp only [List.length_replicate]; omega)
    (replicate_ne_nil_of_pos _ _ (by omega)) (newline_not_mem_replicate _ _ hO)]
  rw [Scanner_step_no_newline 8192 0 _ _ _ _ 8192 16384 0
    (by simp only [List.length_append, List.length_replicate, List.length_nil, l4])
    (by decide) (by simp only [List.length_replicate]; omega)
    (replicate_ne_nil_of_pos _ _ (by omega)) (newline_not_mem_replicate _ _ hO)]
  rw [Scanner_step_no_newline 16384 0 _ _ _ _ 16384 32768 0
    (by simp only [List.length_append, List.length_replicate, List.length_nil, l4])
    (by decide) (by simp only [List.length_replicate]; omega)
    (replicate_ne_nil_of_pos _ _ (by omega)) (newline_not_mem_replicate _ _ hO)]
  rw [Scanner_step_no_newline 32768 0 _ _ _ _ 32768 65536 0
    (by simp only [List.length_append, List.length_replicate, List.length_nil, l4])
    (by decide) (by simp only [List.length_replicate]; omega)
    (replicate_ne_nil_of_pos _ _ (by omega)) (newline_not_mem_replicate _ _ hO)]
  exact Scanner_step_too_long 65536 0 _ _ _ 65536
    (by simp only [List.length_append, List.length_replicate, List.length_nil, l4])
    (by decide)

/-- The connection `overlongOffPort` delivers `overlongOff` and `OK`, each
with its terminator -/
theorem received_overlongOffPort :
    received overlongOffPort.reads = wireLines [overlongOff, lit "OK"] := by
  have hs : lit "\r\nOK\r\n" = Suffix ++ (lit "OK" ++ Suffix) := by decide
  have hr : List.replicate 65532 (79 : UInt8) =
      List.replicate 4092 79 ++ (List.replicate 4096 79 ++ (List.replicate 8192 79 ++
        (List.replicate 16384 79 ++ List.replicate 32768 79))) := by
    simp only [List.append_replicate_replicate]
  simp only [overlongOffPort, received, TimeoutReader.Read, wireLines, overlongOff, hs, hr,
    List.flatMap_cons, List.flatMap_nil, List.append_nil, List.append_assoc]

/-- The line `overlongOff` parses to Off -/
theorem ParseResponse_overlongOff : ParseResponse overlongOff = .ok ResponseOff := by
  have ht : TrimRight overlongOff cutset = lit "PW=0" := by
    unfold overlongOff
    rw [TrimRight_append_padding _ _ _ (by
      intro b hb
      rw [(List.mem_replicate.mp hb).2]
      decide)]
    decide
  simp only [ParseResponse, ht]
  decide

/-- On the connection `overlongJunkPort` every read keeps to its buffer, and
the scanner delivers `OK` and then gives up -/
theorem Scanner_on_overlongJunkPort :
    (Scanner.tokens overlongJunkPort.reads,
      Scanner.readsOk 0 0 [] 0 overlongJunkPort.reads) = ([lit "OK"], true) := by
  have hA : (65 : UInt8) ≠ 10 := by decide
  have hsp : splitLines [] (lit "OK\r\n") = ([lit "OK"], []) := by decide
  have hst : 0 + (0 + (lit "OK\r\n").length - ([] : GoString).length) = 4 := by decide
  have hrest : ∀ reads : List SourceRead,
      (Scanner.lines 4096 4 [] 0
          (.completes (List.replicate 4092 65) none :: .completes (List.replicate 4 65) none ::
            .completes (List.replicate 4096 65) none ::
            .completes (List.replicate 8192 65) none ::
            .completes (List.replicate 16384 65) none ::
            .completes (List.replicate 32768 65) none :: reads),
        Scanner.readsOk 4096 4 [] 0
          (.completes (List.replicate 4092 65) none :: .completes (List.replicate 4 65) none ::
            .completes (List.replicate 4096 65) none ::
            .completes (List.replicate 8192 65) none ::
            .completes (List.replicate 16384 65) none ::
            .completes (List.replicate 32768 65) none :: reads)) = ([], true) := by
    intro reads
    rw [Scanner_step_no_newline 4096 4 [] _ _ _ 0 4096 4 rfl (by decide)
      (by simp only [List.length_replicate]; omega)
      (replicate_ne_nil_of_pos _ _ (by omega)) (newline_not_mem_replicate _ _ hA)]
    rw [Scanner_step_no_newline 4096 4 _ _ _ _ 4092 4096 0
      (by simp only [List.length_append, List.length_replicate, List.length_nil])
      (by decide) (by simp only [List.length_replicate]; omega)
      (replicate_ne_nil_of_pos _ _ (by omega)) (newline_not_mem_replicate _ _ hA)]
    rw [Scanner_step_no_newline 4096 0 _ _ _ _ 4096 8192 0
      (by simp only [List.length_append, List.length_replicate, List.length_nil])
      (by decide) (by simp only [List.length_replicate]; omega)
      (replicate_ne_nil_of_pos _ _ (by omega)) (newline_not_mem_replicate _ _ hA)]
    rw [Scanner_step_no_newline 8192 0 _ _ _ _ 8192 16384 0
      (by simp only [List.length_append, List.length_replicate, List.length_nil])
      (by decide) (by simp only [List.length_replicate]; omega)
      (replicate_ne_nil_of_pos _ _ (by omega)) (newline_not_mem_replicate _ _ hA)]
    rw [Scanner_step_no_newline 16384 0 _ _ _ _ 16384 32768 0
      (by simp only [List.length_append, List.length_replicate, List.length_nil])
      (by decide) (by simp only [List.length_replicate]; omega)
      (replicate_ne_nil_of_pos _ _ (by omega)) (newline_not_mem_replicate _ _ hA)]
    rw [Scanner_step_no_newline 32768 0 _ _ _ _ 32768 65536 0
      (by simp only [List.length_append, List.length_replicate, List.length_nil])
      (by decide) (by simp only [List.length_replicate]; omega)
      (replicate_ne_nil_of_pos _ _ (by omega)) (newline_not_mem_replicate _ _ hA)]
    exact Scanner_step_too_long 65536 0 _ _ _ 65536
      (by simp only [List.length_append, List.length_replicate, List.length_nil])
      (by decide)
  unfold Scanner.tokens overlongJunkPort
  simp only
  rw [Scanner_lines_read 0 0 [] 0 (lit "OK\r\n") _ 0 4096 0 rfl (by decide) (by decide)
      (by decide),
    Scanner_readsOk_read 0 0 [] 0 (lit "OK\r\n") _ 0 4096 0 rfl (by decide) (by decide)
      (by decide)]
  rw [hsp]
  simp only
  rw [hst]
  have h1 := congrArg Prod.fst (hrest [.completes (lit "\r\n") none])
  have h2 := congrArg Prod.snd (hrest [.completes (lit "\r\n") none])
  simp only at h1 h2
  rw [h1, h2]
  rfl

/-- The connection `overlongJunkPort` delivers `OK` and `overlongJunk`, each
with its terminator -/
theorem received_overlongJunkPort :
    received overlongJunkPort.reads = wireLines [lit "OK", overlongJunk] := by
  have hs : lit "OK\r\n" = lit "OK" ++ Suffix := by decide
  have hs2 : lit "\r\n" = Suffix := by decide
  have hr : List.replicate 65536 (65 : UInt8) =
      List.replicate 4092 65 ++ (List.replicate 4 65 ++ (List.replicate 4096 65 ++
        (List.replicate 8192 65 ++ (List.replicate 16384 65 ++ List.replicate 32768 65)))) := by
    simp only [List.append_replicate_replicate]
  simp only [overlongJunkPort, received, TimeoutReader.Read, wireLines, overlongJunk, hs, hs2,
    hr, List.flatMap_cons, List.flatMap_nil, List.append_nil, List.append_assoc]

/-- The line `overlongJunk` does not parse -/
theorem ParseResponse_overlongJunk :
    ParseResponse overlongJunk = .error (.invalidResponse overlongJunk) := by
  have hlen : overlongJunk.length = 65536 := by
    unfold overlongJunk
    exact List.length_replicate _ _
  have ht : TrimRight overlongJunk cutset = overlongJunk := by
    have hsplit : overlongJunk = List.replicate 65535 65 ++ [65] :=
      List.replicate_succ' 65535 (65 : UInt8)
    unfold TrimRight
    rw [hsplit]
    exact List.rdropWhile_concat_neg _ _ _ (by decide)
  have hne : ∀ t : GoString, t.length < 65536 → TrimRight overlongJunk cutset ≠ t := by
    intro t hlt e
    rw [ht] at e
    rw [e] at hlen
    omega
  rcases ParseResponse_cases overlongJunk with ⟨h, _⟩ | ⟨h, _⟩ | ⟨h, _⟩ | ⟨h, _⟩ | ⟨_, h⟩
  · exact absurd h (hne _ (by decide))
  · exact absurd h (hne _ (by decide))
  · exact absurd h (hne _ (by decide))
  · exact absurd h (hne _ (by decide))
  · exact h

/-- C3, against the claim: the connection `overlongOffPort` takes the write
and delivers, in reads that keep to their buffer, two lines that both parse,
`PW=0` padded with the letter O to 65536 bytes and `OK`; `SendRequest` returns
no error and no response at all, not Off and Ok. -/
theorem SendRequest_drops_overlong_line :
    overlongOffPort.writeErr = none ∧
    received overlongOffPort.reads = wireLines [overlongOff, lit "OK"] ∧
    Scanner.readsOk 0 0 [] 0 overlongOffPort.reads = true ∧
    overlongOff.length = 65536 ∧
    ParseResponse overlongOff = .ok ResponseOff ∧
    ParseResponse (lit "OK") = .ok ResponseOk ∧
    (SendRequest overlongOffPort RequestInquire).result = .ok [] ∧
    (SendRequest overlongOffPort RequestInquire).result ≠ .ok [ResponseOff, ResponseOk] := by
  have htok := congrArg Prod.fst Scanner_on_overlongOffPort
  have hok := congrArg Prod.snd Scanner_on_overlongOffPort
  simp only at htok hok
  have hres : (SendRequest overlongOffPort RequestInquire).result = .ok [] := by
    have hw : overlongOffPort.writeErr = none := rfl
    simp only [SendRequest, hw, htok]
    rfl
  refine ⟨rfl, received_overlongOffPort, hok, ?_, ParseResponse_overlongOff, by decide, hres, ?_⟩
  · have l4 : (lit "PW=0").length = 4 := by decide
    simp only [overlongOff, List.length_append, List.length_replicate, l4]
  · rw [hres]
    intro h
    cases h

/-- C3, amended: the connection delivers, before its first error or timeout,
the lines `ls`, each free of newlines, at most 65534 bytes long and followed
by `\r\n`, and then the bytes `last` without a terminator (free of newlines,
not ending in a carriage return, fewer than 65536; they make a last line
unless empty), through reads that keep to the buffer they are given and are
not empty more than 100 times in a row.  When the write succeeds and every
one of these lines parses, `SendRequest` returns no error and the parsed
values, one per line and in the order of the lines (none when there is no
line); a connection that delivers `PW=0\r\n` to an Inquire and then stays
silent yields `[Off]`, and so does one that delivers it together with the end
of the input; `PW=0\r\nOK` followed by silence yields `[Off, Ok]`. -/
theorem SendRequest_returns_values_of_delivered_lines (p : Port) (r : Request)
    (ls : List GoString) (last : GoString)
    (hw : p.writeErr = none)
    (hrecv : received p.reads = wireLines ls ++ last)
    (hok : Scanner.readsOk 0 0 [] 0 p.reads = true)
    (hls : ∀ l ∈ ls, (10 : UInt8) ∉ l ∧ l.length + 2 ≤ 65536)
    (hlast : (10 : UInt8) ∉ last ∧ last.getLast? ≠ some 13 ∧ last.length < 65536)
    (hp : ∀ l ∈ deliveredLines ls last, ∃ v, ParseResponse l = .ok v) :
    (∃ vs, (SendRequest p r).result = .ok vs ∧
      List.Forall₂ (fun text v => ParseResponse text = .ok v) (deliveredLines ls last) vs) ∧
    (deliveredLines ls last = [] → (SendRequest p r).result = .ok []) ∧
    (SendRequest ⟨none, [.completes (lit "PW=0\r\n") none]⟩ RequestInquire).result =
      .ok [ResponseOff] ∧
    (SendRequest ⟨none, [.completes (lit "PW=0\r\n") (some .EOF)]⟩ RequestInquire).result =
      .ok [ResponseOff] ∧
    (SendRequest ⟨none, [.completes (lit "PW=0\r\nOK") none]⟩ RequestInquire).result =
      .ok [ResponseOff, ResponseOk] := by
  have htok : Scanner.tokens p.reads = deliveredLines ls last :=
    Scanner_tokens_of_delivered p.reads ls last hrecv hok hls hlast
  obtain ⟨vs, hvs⟩ := exists_values_of_all_parse _ hp
  have hres : (SendRequest p r).result = .ok vs := by
    simp only [SendRequest, hw, htok]
    rw [SendRequest_loop_ok _ vs hvs]
    rfl
  refine ⟨⟨vs, hres, hvs⟩, ?_, by decide, by decide, by decide⟩
  intro hnil
  rw [hnil] at hvs
  cases hvs
  exact hres

/-- The amended C3 at a connection that delivers `PW=0\r\n` in one read and
`OK`, unterminated, together with the end of the input -/
theorem SendRequest_returns_values_of_delivered_lines_witness :
    ∃ vs, (SendRequest ⟨none, [.completes (lit "PW=0\r\n") none,
        .completes (lit "OK") (some .EOF)]⟩ RequestTurnOff).result = .ok vs ∧
      List.Forall₂ (fun text v => ParseResponse text = .ok v)
        (deliveredLines [lit "PW=0"] (lit "OK")) vs :=
  (SendRequest_returns_values_of_delivered_lines
    ⟨none, [.completes (lit "PW=0\r\n") none, .completes (lit "OK") (some .EOF)]⟩
    RequestTurnOff [lit "PW=0"] (lit "OK") rfl (by decide) (by decide) (by decide) (by decide)
    (by
      have hl : deliveredLines [lit "PW=0"] (lit "OK") = [lit "PW=0", lit "OK"] := by decide
      intro l hmem
      simp only [hl, List.mem_cons, List.mem_singleton, List.not_mem_nil, or_false] at hmem
      rcases hmem with rfl | rfl
      · exact ⟨ResponseOff, by decide⟩
      · exact ⟨ResponseOk, by decide⟩)).1

/-- C4, against the claim: the connection `overlongJunkPort` takes the write
and delivers, in reads that keep to their buffer, the line `OK` and then a
line of 65536 letters A, which does not parse; `SendRequest` returns no error
and the partial result `[Ok]`. -/
theorem SendRequest_no_error_after_overlong_line :
    overlongJunkPort.writeErr = none ∧
    received overlongJunkPort.reads = wireLines [lit "OK", overlongJunk] ∧
    Scanner.readsOk 0 0 [] 0 overlongJunkPort.reads = true ∧
    overlongJunk.length = 65536 ∧
    ParseResponse overlongJunk = .error (.invalidResponse overlongJunk) ∧
    (SendRequest overlongJunkPort RequestInquire).result = .ok [ResponseOk] := by
  have htok := congrArg Prod.fst Scanner_on_overlongJunkPort
  have hok := congrArg Prod.snd Scanner_on_overlongJunkPort
  simp only at htok hok
  refine ⟨rfl, received_overlongJunkPort, hok, ?_, ParseResponse_overlongJunk, ?_⟩
  · simp only [overlongJunk, List.length_replicate]
  · have hw : overlongJunkPort.writeErr = none := rfl
    simp only [SendRequest, hw, htok]
    decide

/-- C4, amended: the connection delivers, before its first error or timeout,
the lines `ls`, each free of newlines, at most 65534 bytes long and followed
by `\r\n`, and then the bytes `last` without a terminator (free of newlines,
not ending in a carriage return, fewer than 65536; they make a last line
unless empty), through reads that keep to the buffer they are given and are
not empty more than 100 times in a row.  When the write succeeded and one of
these lines fails to parse, `SendRequest` returns no responses but an error:
the parse error of the first such line, wrapped and annotated with the index
of that line counted from 0; a connection that delivers `ERROR\r\n` first
yields the device error at index 0, also when the line comes together with the
end of the input, and `OK\r\nERROR` followed by silence yields it at index 1. -/
theorem SendRequest_parse_failure_of_delivered_lines (p : Port) (r : Request)
    (ls : List GoString) (last : GoString)
    (hw : p.writeErr = none)
    (hrecv : received p.reads = wireLines ls ++ last)
    (hok : Scanner.readsOk 0 0 [] 0 p.reads = true)
    (hls : ∀ l ∈ ls, (10 : UInt8) ∉ l ∧ l.length + 2 ≤ 65536)
    (hlast : (10 : UInt8) ∉ last ∧ last.getLast? ≠ some 13 ∧ last.length < 65536)
    (hf : ∃ l ∈ deliveredLines ls last, ∃ e, ParseResponse l = .error e) :
    (∃ i text e, (deliveredLines ls last)[i]? = some text ∧
      ParseResponse text = .error e ∧
      (∀ j l, j < i → (deliveredLines ls last)[j]? = some l →
        ∃ v, ParseResponse l = .ok v) ∧
      (SendRequest p r).result = .error (.parseResponseAt i e) ∧
      (GoError.parseResponseAt i e).Unwrap = some e) ∧
    (SendRequest ⟨none, [.completes (lit "ERROR\r\n") none]⟩ RequestInquire).result =
      .error (.parseResponseAt 0 .gotErrorResponse) ∧
    (GoError.parseResponseAt 0 .gotErrorResponse).Error =
      some (lit "parse response at 0: got error response") ∧
    (SendRequest ⟨none, [.completes (lit "ERROR\r\n") (some .EOF)]⟩ RequestInquire).result =
      .error (.parseResponseAt 0 .gotErrorResponse) ∧
    (SendRequest ⟨none, [.completes (lit "OK\r\nERROR") none]⟩ RequestInquire).result =
      .error (.parseResponseAt 1 .gotErrorResponse) := by
  have htok : Scanner.tokens p.reads = deliveredLines ls last :=
    Scanner_tokens_of_delivered p.reads ls last hrecv hok hls hlast
  refine ⟨?_, by decide, by decide, by decide, by decide⟩
  obtain ⟨pre, text, post, e, hsplit, hpre, he⟩ := exists_first_failure _ hf
  refine ⟨pre.length, text, e, ?_, he, ?_, ?_, rfl⟩
  · rw [hsplit, List.getElem?_append_right (Nat.le_refl _)]
    simp
  · intro j l hj hl
    rw [hsplit, List.getElem?_append_left hj] at hl
    exact hpre l (List.getElem?_mem hl)
  · simp only [SendRequest, hw, htok]
    rw [hsplit, SendRequest_loop_error pre text post e hpre he]
    simp

/-- The amended C4 at a connection that delivers `OK` and `PW=2` in one read
and `ERROR` together with the end of the input -/
theorem SendRequest_parse_failure_of_delivered_lines_witness :
    ∃ i text e,
      (deliveredLines [lit "OK", lit "PW=2", lit "ERROR"] [])[i]? = some text ∧
      ParseResponse text = .error e ∧
      (∀ j l, j < i →
        (deliveredLines [lit "OK", lit "PW=2", lit "ERROR"] [])[j]? = some l →
        ∃ v, ParseResponse l = .ok v) ∧
      (SendRequest ⟨none, [.completes (lit "OK\r\nPW=2\r\n") none,
          .completes (lit "ERROR\r\n") (some .EOF)]⟩
        RequestTurnOn).result = .error (.parseResponseAt i e) ∧
      (GoError.parseResponseAt i e).Unwrap = some e :=
  (SendRequest_parse_failure_of_delivered_lines
    ⟨none, [.completes (lit "OK\r\nPW=2\r\n") none, .completes (lit "ERROR\r\n") (some .EOF)]⟩
    RequestTurnOn [lit "OK", lit "PW=2", lit "ERROR"] [] rfl (by decide) (by decide)
    (by decide) (by decide)
    ⟨lit "PW=2", by decide, .invalidResponse (lit "PW=2"), by decide⟩).1

/-- C5: the line that `SendRequest` hands to the connection is `PW=`, the code
of the command and `\r\n`; the code is `0` for TurnOff, `1` for TurnOn and `?`
for every other value, Inquire among them. -/
theorem SendRequest_writes_command_line (p : Port) (r : Request) :
    (SendRequest p r).sent = [lit "PW=" ++ r.String ++ lit "\r\n"] ∧
    (r.String =
      if r.val = 0 then lit "0" else if r.val = 1 then lit "1" else lit "?") ∧
    RequestTurnOff.String = lit "0" ∧ RequestTurnOn.String = lit "1" ∧
    RequestInquire.String = lit "?" ∧
    (SendRequest p RequestTurnOff).sent = [lit "PW=0\r\n"] ∧
    (SendRequest p RequestTurnOn).sent = [lit "PW=1\r\n"] ∧
    (SendRequest p RequestInquire).sent = [lit "PW=?\r\n"] := by
  have hsent : ∀ q : Request, (SendRequest p q).sent = [lit "PW=" ++ q.String ++ lit "\r\n"] := by
    intro q
    unfold SendRequest
    cases p.writeErr <;> rfl
  refine ⟨hsent r, ?_, by decide, by decide, by decide, ?_, ?_, ?_⟩
  · obtain ⟨n⟩ := r
    simp only [Request.String, RequestTurnOff, RequestTurnOn, Request.mk.injEq]
  · rw [hsent]; decide
  · rw [hsent]; decide
  · rw [hsent]; decide

/-- A connection that takes the write and never delivers a byte: the exchange
returns the empty sequence and no error -/
theorem SendRequest_of_silent_connection (p : Port) (r : Request)
    (hw : p.writeErr = none)
    (hsilent : ∀ rd ∈ p.reads, (TimeoutReader.Read rd).1 = []) :
    (SendRequest p r).result = .ok [] := by
  simp only [SendRequest, hw]
  rw [Scanner.tokens, Scanner_lines_of_no_bytes p.reads hsilent]
  rfl

/-- C6, at the failing input: the timer fires first and the read completes
while `Read` is still running its deferred print.  The call then reports the
late bytes with no end-of-input (and the exchange goes on: the line is parsed),
or it reports the input/output error of the late read, that is a failure. -/
theorem TimeoutReader_Read_reports_late_read :
    TimeoutReader.Read (.late (lit "PW=0\r\n") none) = (lit "PW=0\r\n", none) ∧
    TimeoutReader.Read (.late [] (some (.io (lit "input/output error")))) =
      ([], some (.io (lit "input/output error"))) ∧
    (SendRequest ⟨none, [.late (lit "PW=0\r\n") none]⟩ RequestInquire).result =
      .ok [ResponseOff] := by
  decide

/-- C8, at the failing input: a connection that takes the write and whose
read fails with an input/output error makes `SendRequest` return no error, and
the responses parsed before the failure are returned. -/
theorem SendRequest_drops_read_error :
    (SendRequest ⟨none, [.completes [] (some (.io (lit "input/output error")))]⟩
      RequestInquire).result = .ok [] ∧
    (SendRequest ⟨none, [.completes (lit "PW=0\r\n") none,
        .completes [] (some (.io (lit "input/output error")))]⟩
      RequestInquire).result = .ok [ResponseOff] := by
  decide

/-- A failed write is returned wrapped, with no responses -/
theorem SendRequest_write_failure (p : Port) (r : Request) (err : GoError)
    (hw : p.writeErr = some err) :
    (SendRequest p r).result = .error (.sendRequest err) ∧
    (GoError.sendRequest err).Unwrap = some err := by
  simp [SendRequest, hw, GoError.Unwrap]

end UsbTroubleshoot
